import Mathlib

/-!
# cf-plugin-kibana-me-logs: a shallow embedding of `plugin.go`

Go strings are modelled as lists of Unicode code points (`Str`), that is, as
valid UTF-8 text.  The separator `" "` and the cutset `","` used by the plugin
are single ASCII characters, so splitting and trimming by character agrees with
Go's byte-wise behaviour on such text.

The methods of the plugin that talk to the outside (`Run`, `findAppGUID`,
`findService`) are functions from the events so far to a result (`Prog`): a
value, `os.Exit`, or a run-time panic (an index out of range, a nil pointer
dereferenced).  The
command runner, the configuration file and the JSON decoder are fields of
`World`.
-/

namespace KibanaMeLogs

set_option maxRecDepth 20000

/-! ## The pieces of Go's `strings` and `unicode` packages used by the plugin -/

/-- Go `string`, as the list of its code points. -/
abbrev Str := List Char

/-- Go `unicode.IsSpace`: the code points with the Unicode White_Space property. -/
def isSpace (c : Char) : Bool :=
  let n := c.toNat
  (9 ≤ n && n ≤ 13) || n == 32 || n == 133 || n == 160 || n == 5760 ||
  (8192 ≤ n && n ≤ 8202) || n == 8232 || n == 8233 || n == 8239 || n == 8287 ||
  n == 12288

/-- Go `strings.TrimLeftFunc`: drop the longest leading run satisfying `f`. -/
def TrimLeftFunc (s : Str) (f : Char → Bool) : Str :=
  s.dropWhile f

/-- Go `strings.TrimRightFunc`: drop the longest trailing run satisfying `f`. -/
def TrimRightFunc (s : Str) (f : Char → Bool) : Str :=
  (s.reverse.dropWhile f).reverse

/-- Go `strings.TrimFunc`: drop leading and trailing runs satisfying `f`. -/
def TrimFunc (s : Str) (f : Char → Bool) : Str :=
  TrimRightFunc (TrimLeftFunc s f) f

/-- Go `strings.TrimSpace`: remove all leading and trailing white space. -/
def TrimSpace (s : Str) : Str :=
  TrimFunc s isSpace

/-- Go `strings.Trim(s, cutset)`: remove all leading and trailing code points
contained in `cutset`. -/
def Trim (s : Str) (cutset : Str) : Str :=
  TrimFunc s (fun c => cutset.contains c)

/-- Go `strings.Split(s, sep)` for a separator of one character: the pieces of
`s` between consecutive occurrences of `sep`; never the empty list. -/
def Split : Str → Char → List Str
  | [], _ => [[]]
  | c :: cs, sep =>
    if c = sep then [] :: Split cs sep
    else
      match Split cs sep with
      | [] => [[c]]
      | piece :: pieces => (c :: piece) :: pieces

/-- Go `strings.Fields`: the maximal runs of non-space code points of `s`, with
`cur` the run being read, in reverse. -/
def fieldsFrom : Str → Str → List Str
  | [], cur => if cur.isEmpty then [] else [cur.reverse]
  | c :: cs, cur =>
    if isSpace c then
      (if cur.isEmpty then fieldsFrom cs [] else cur.reverse :: fieldsFrom cs [])
    else fieldsFrom cs (c :: cur)

/-- Go `strings.Fields(s)`: the white-space-delimited tokens of `s`. -/
def Fields (s : Str) : List Str :=
  fieldsFrom s []

/-- Go `strings.Join(elems, sep)`. -/
def Join : List Str → Str → Str
  | [], _ => []
  | [a], _ => a
  | a :: b :: rest, sep => a ++ sep ++ Join (b :: rest) sep

/-- Go `strings.TrimRight(s, cutset)`: remove the trailing code points contained
in `cutset`; the "stripped of trailing commas" of the specification. -/
def TrimRight (s : Str) (cutset : Str) : Str :=
  TrimRightFunc s (fun c => cutset.contains c)

/-! ## `getURLFromOutput` (plugin.go, lines 169-187) -/

/-- The literal `"urls:"` compared with `splitLine[0]`. -/
def urlsLabel : Str := "urls:".toList

/-- The literal `"http://"` put in front of every route. -/
def scheme : Str := "http://".toList

/-- The message of `errors.New("App has no route")`. -/
def noRouteMessage : Str := "App has no route".toList

/-- The body of the inner loop `for p := 1; p < len(splitLine); p++`. -/
def appendURL (urls : List Str) (piece : Str) : List Str :=
  urls ++ [TrimSpace (scheme ++ Trim piece [','])]

/-- The loop `for _, line := range output` of `getURLFromOutput`, started with
the URLs gathered so far.  The result is the pair `(urls, err)` the Go function
returns, with `none` for a nil error. -/
def getURLFromOutputLoop : List Str → List Str → List Str × Option Str
  | [], urls => (urls, none)
  | line :: rest, urls =>
    let splitLine := Split (TrimSpace line) ' '
    if splitLine.head? = some urlsLabel then
      if splitLine.length > 1 then
        getURLFromOutputLoop rest ((splitLine.drop 1).foldl appendURL urls)
      else if splitLine.length = 1 then
        ([[]], some noRouteMessage)
      else getURLFromOutputLoop rest urls
    else getURLFromOutputLoop rest urls

/-- Go `getURLFromOutput`: `urls := []string{}` followed by the loop. -/
def getURLFromOutput (output : List Str) : List Str × Option Str :=
  getURLFromOutputLoop output []

/-- The test of line 173 on one line: the first piece of the trimmed line,
split at single spaces, is `urls:`. -/
def startsWithUrlsLabel (line : Str) : Prop :=
  (Split (TrimSpace line) ' ').head? = some urlsLabel

instance (line : Str) : Decidable (startsWithUrlsLabel line) := by
  unfold startsWithUrlsLabel
  infer_instance

/-- The URLs the specification derives from one line: its white-space-delimited
tokens after the first, each stripped of trailing commas and prefixed with the
scheme. -/
def specURLs (line : Str) : List Str :=
  ((Fields line).drop 1).map (fun t => scheme ++ TrimRight t [','])

/-! ## The data model (plugin.go, lines 31-56) -/

/-- Go `appSearchMetaData`. -/
structure appSearchMetaData where
  GUID : Str
  URL : Str
  deriving DecidableEq

/-- Go `appSearchResources`. -/
structure appSearchResources where
  Metadata : appSearchMetaData
  deriving DecidableEq

/-- Go `appSearchResults`. -/
structure appSearchResults where
  Resources : List appSearchResources
  deriving DecidableEq

/-- A decoded JSON value held in an `interface{}`; numbers keep their text. -/
inductive JsonValue where
  | null
  | bool (b : Bool)
  | number (text : Str)
  | string (s : Str)
  | array (items : List JsonValue)
  | object (members : List (Str × JsonValue))

/-- Go `appEnvService`. -/
structure appEnvService where
  Name : Str
  Label : Str
  Tags : List Str
  Plan : Str
  Credentials : List (Str × JsonValue)

/-- The zero value `appEnvService{}` of a named result that was never assigned. -/
def appEnvService.zero : appEnvService :=
  { Name := [], Label := [], Tags := [], Plan := [], Credentials := [] }

/-- Go `appEnvServices`, a `map[string][]appEnvService`, as an association list. -/
abbrev appEnvServices := List (Str × List appEnvService)

/-- Go map indexing `services[serviceName]`: the nil slice for an absent key. -/
def appEnvServices.index (services : appEnvServices) (key : Str) : List appEnvService :=
  (services.lookup key).getD []

/-! ## The collaborators of the plugin and its effects -/

/-- What the plugin reads from outside during one run.  Each command is taken
to answer the same way every time it is issued within the run. -/
structure World where
  /-- Go `cliConnection.CliCommandWithoutTerminalOutput(args...)`: the
  captured output lines and the error (`none` for nil). -/
  cli : List Str → List Str × Option Str
  /-- The CLI configuration file: the current space GUID
  (`confRepo.SpaceFields().Guid`), or the error met while loading it, which
  the repository passes to its error handler. -/
  config : Except Str Str
  /-- Go `json.Unmarshal(text, &res)` with `res := &appSearchResults{}`
  (lines 142-143): what `res` points to afterwards.  Text that does not decode
  leaves the resource list empty; the JSON text `null` sets `res` to nil,
  which is `none`. -/
  unmarshalSearch : Str → Option appSearchResults
  /-- Lines 152-159: decode the environment, re-encode the value under
  `VCAP_SERVICES` and decode that as `appEnvServices`; `error` carries the
  error of `json.Marshal`. -/
  unmarshalServices : Str → Except Str appEnvServices

/-- The observable steps of a run, in the order they happen. -/
inductive Event where
  /-- Go `cliConnection.CliCommand(args...)`, with terminal output. -/
  | cliCommand (args : List Str)
  /-- Go `cliConnection.CliCommandWithoutTerminalOutput(args...)`. -/
  | cliCommandWithoutTerminalOutput (args : List Str)
  /-- One line written by `fmt.Println`. -/
  | println (line : Str)
  /-- A call of `c.getURLFromOutput(output)`. -/
  | getURLFromOutput (output : List Str)
  /-- Go `open.Run(url)`: the URL handed to the browser launcher. -/
  | openRun (url : Str)
  deriving DecidableEq

/-- How a computation stops early. -/
inductive Stop where
  /-- Go `os.Exit(code)`. -/
  | exit (code : Nat)
  /-- A Go run-time panic `index out of range`. -/
  | indexOutOfRange
  /-- A Go run-time panic `nil pointer dereference`. -/
  | nilPointerDereference
  deriving DecidableEq

/-- The result of running a piece of the plugin: a value, or an early stop,
together with the events so far. -/
inductive Res (α : Type) where
  | ok (value : α) (log : List Event)
  | stop (how : Stop) (log : List Event)

/-- A piece of the plugin: a function from the events so far to a result. -/
def Prog (α : Type) : Type := List Event → Res α

/-- Sequencing: run `m`, and continue with `f` unless `m` stopped. -/
def Prog.bind {α β : Type} (m : Prog α) (f : α → Prog β) : Prog β :=
  fun log =>
    match m log with
    | .ok a log1 => f a log1
    | .stop how log1 => .stop how log1

instance : Monad Prog where
  pure a := fun log => .ok a log
  bind := Prog.bind

/-- Record one event. -/
def emit (e : Event) : Prog Unit :=
  fun log => .ok () (log ++ [e])

/-- Go `os.Exit(code)`. -/
def osExit {α : Type} (code : Nat) : Prog α :=
  fun log => .stop (.exit code) log

/-- Go slice indexing `xs[i]`, which panics when `i` is out of range. -/
def index {α : Type} (xs : List α) (i : Nat) : Prog α :=
  fun log =>
    match xs[i]? with
    | some a => .ok a log
    | none => .stop .indexOutOfRange log

/-- Go field access through a pointer, which panics when the pointer is nil. -/
def deref {α : Type} (p : Option α) : Prog α :=
  fun log =>
    match p with
    | some a => .ok a log
    | none => .stop .nilPointerDereference log

/-- Go `fmt.Println("ERROR:", x)`. -/
def printError (x : Str) : Prog Unit :=
  emit (.println ("ERROR: ".toList ++ x))

/-- Go `fatalIf` (lines 17-22). -/
def fatalIf (err : Option Str) : Prog Unit :=
  match err with
  | some e => do
    printError e
    osExit 1
  | none => pure ()

/-- Go `fatalWithMessageIf` (lines 24-29). -/
def fatalWithMessageIf (err : Option Str) (msg : Str) : Prog Unit :=
  match err with
  | some _ => do
    printError msg
    osExit 1
  | none => pure ()

/-- Go `c.cliConnection.CliCommandWithoutTerminalOutput(cmd...)`. -/
def CliCommandWithoutTerminalOutput (w : World) (cmd : List Str) :
    Prog (List Str × Option Str) := do
  emit (.cliCommandWithoutTerminalOutput cmd)
  pure (w.cli cmd)

/-- Go `confRepo.SpaceFields().Guid` on a repository built with `fatalIf` as
its error handler (lines 135-136). -/
def spaceGuid (w : World) : Prog Str :=
  match w.config with
  | .ok guid => pure guid
  | .error e => do
    fatalIf (some e)
    pure []

/-! ## The methods of the plugin -/

/-- The command `[]string{"curl", appQuery}` of lines 139 and 150. -/
def curlCommand (appQuery : Str) : List Str :=
  ["curl".toList, appQuery]

/-- The command `"app", name` of lines 77 and 81. -/
def appCommand (name : Str) : List Str :=
  ["app".toList, name]

/-- The query of line 138. -/
def appSearchQuery (spaceGUID appName : Str) : Str :=
  "/v2/spaces/".toList ++ spaceGUID ++ "/apps?q=name:".toList ++ appName ++
    "&inline-relations-depth=1".toList

/-- Go `findAppGUID` (lines 133-146). -/
def findAppGUID (w : World) (appName : Str) : Prog Str := do
  let spaceGUID ← spaceGuid w
  let appQuery := appSearchQuery spaceGUID appName
  let cmd := curlCommand appQuery
  let (output, _) ← CliCommandWithoutTerminalOutput w cmd
  let res ← deref (w.unmarshalSearch (Join output []))
  let first ← index res.Resources 0
  pure first.Metadata.GUID

/-- The query of line 149. -/
def appEnvQuery (appGUID : Str) : Str :=
  "/v2/apps/".toList ++ appGUID ++ "/env".toList

/-- The message of line 161. -/
def notBoundMessage (serviceName : Str) : Str :=
  "app is not bound to a ".toList ++ serviceName ++ " service".toList

/-- Go `findService` (lines 148-166); the result is the pair `(logstash, err)`. -/
def findService (w : World) (appGUID serviceName : Str) :
    Prog (appEnvService × Option Str) := do
  let appQuery := appEnvQuery appGUID
  let cmd := curlCommand appQuery
  let (output, _) ← CliCommandWithoutTerminalOutput w cmd
  let text ← index output 0
  match w.unmarshalServices text with
  | .error e => pure (appEnvService.zero, some e)
  | .ok services =>
    if (services.index serviceName).length = 0 then
      pure (appEnvService.zero, some (notBoundMessage serviceName))
    else do
      let logstash ← index (services.index serviceName) 0
      pure (logstash, none)

/-- The command name the plugin answers to. -/
def commandName : Str := "kibana-me-logs".toList

/-- The service label looked up in both applications. -/
def logstashLabel : Str := "logstash14".toList

/-- The message of line 91. -/
def mismatchMessage : Str :=
  "app and kibana do not share the same logstash14 service".toList

/-- The comparison of lines 90-92. -/
def correlationCheck (appLogstash kibanaLogstash : appEnvService) : Prog Unit :=
  if appLogstash.Name ≠ kibanaLogstash.Name then fatalIf (some mismatchMessage)
  else pure ()

/-- Go `fmt.Sprintf("%s/#/dashboard/file/app-logs-%s.json", kibanaBaseURL, appGUID)`. -/
def dashboardURL (kibanaBaseURL appGUID : Str) : Str :=
  kibanaBaseURL ++ "/#/dashboard/file/app-logs-".toList ++ appGUID ++ ".json".toList

/-- Go `Run` (lines 69-99). -/
def Run (w : World) (args : List Str) : Prog Unit := do
  let arg0 ← index args 0
  (if arg0 ≠ commandName ∨ args.length < 3 then emit (.cliCommand [arg0, "-h".toList])
    else pure ())
  let kibanaAppName ← index args 1
  let appName ← index args 2
  let (kibanaAppOutput, err) ← CliCommandWithoutTerminalOutput w (appCommand kibanaAppName)
  fatalWithMessageIf err "kibana app does not exist in this org/space".toList
  let kibanaGUID ← findAppGUID w kibanaAppName
  let (_, err) ← CliCommandWithoutTerminalOutput w (appCommand appName)
  fatalWithMessageIf err "app does not exist in this org/space".toList
  let appGUID ← findAppGUID w appName
  let (kibanaLogstash, err) ← findService w kibanaGUID logstashLabel
  fatalIf err
  let (appLogstash, err) ← findService w appGUID logstashLabel
  fatalIf err
  correlationCheck appLogstash kibanaLogstash
  emit (.getURLFromOutput kibanaAppOutput)
  let (kibanaURLs, err) := getURLFromOutput kibanaAppOutput
  fatalIf err
  let kibanaBaseURL ← index kibanaURLs 0
  let appURL := dashboardURL kibanaBaseURL appGUID
  emit (.openRun appURL)

/-! ## What the platform reports, and what a run did -/

/-- The identifier the search of `findAppGUID` yields for an application name:
the GUID of the first resource of the decoded response for the current space. -/
def resolvedGUID (w : World) (appName : Str) : Option Str :=
  match w.config with
  | .ok spaceGUID =>
    match w.unmarshalSearch
        (Join (w.cli (curlCommand (appSearchQuery spaceGUID appName))).1 []) with
    | some res => (res.Resources.head?).map (fun r => r.Metadata.GUID)
    | none => none
  | .error _ => none

/-- The first binding with the given label in the decoded environment of the
application with the given identifier. -/
def boundService (w : World) (appGUID serviceName : Str) : Option appEnvService :=
  match (w.cli (curlCommand (appEnvQuery appGUID))).1 with
  | [] => none
  | text :: _ =>
    match w.unmarshalServices text with
    | .ok services => (services.index serviceName).head?
    | .error _ => none

/-- The URLs handed to the browser launcher during a run. -/
def openedURLs : List Event → List Str
  | [] => []
  | .openRun url :: rest => url :: openedURLs rest
  | _ :: rest => openedURLs rest

/-- The status outputs passed to `getURLFromOutput` during a run. -/
def parsedOutputs : List Event → List (List Str)
  | [] => []
  | .getURLFromOutput output :: rest => output :: parsedOutputs rest
  | _ :: rest => parsedOutputs rest

/-! ## Example inputs: the end-to-end scenario of the specification -/

/-- The status block of the specification's example for C1. -/
def exampleStatus : List Str :=
  ["requested state: started".toList, "instances: 1/1".toList,
   "urls: foo.example.com, bar.example.com".toList, "last uploaded: today".toList]

/-- The text of a search response with one resource of the given GUID:
`{"resources": [{"metadata": {"guid": "<guid>", "url": "/v2/apps/<guid>"}}]}`. -/
def searchResponse (guid : Str) : Str :=
  "\x7b\x22resources\x22: [\x7b\x22metadata\x22: \x7b\x22guid\x22: \x22".toList ++ guid ++
    "\x22, \x22url\x22: \x22/v2/apps/".toList ++ guid ++ "\x22\x7d\x7d]\x7d".toList

/-- What `searchResponse guid` decodes to. -/
def searchResults (guid : Str) : appSearchResults :=
  { Resources := [{ Metadata := { GUID := guid, URL := "/v2/apps/".toList ++ guid } }] }

/-- The text of a search response without resources: `{"resources": []}`. -/
def emptySearchResponse : Str :=
  "\x7b\x22resources\x22: []\x7d".toList

/-- The name of the `logstash14` service bound to `web1`: that of `dash`, or
another one. -/
def appBindingName (same : Bool) : Str :=
  if same then "shared-log".toList else "other-log".toList

/-- The text of an environment response with one `logstash14` binding of the
given name:
`{"system_env_json": {"VCAP_SERVICES": {"logstash14": [{"name": "<name>",
"label": "logstash14", "tags": ["logstash"], "plan": "free",
"credentials": {"hostname": "10.0.0.5"}}]}}}`. -/
def envResponse (name : Str) : Str :=
  "\x7b\x22system_env_json\x22: \x7b\x22VCAP_SERVICES\x22: \x7b\x22logstash14\x22: ".toList ++
    "[\x7b\x22name\x22: \x22".toList ++ name ++
    "\x22, \x22label\x22: \x22logstash14\x22, \x22tags\x22: [\x22logstash\x22], ".toList ++
    "\x22plan\x22: \x22free\x22, ".toList ++
    "\x22credentials\x22: \x7b\x22hostname\x22: \x2210.0.0.5\x22\x7d\x7d]\x7d\x7d\x7d".toList

/-- The binding in `envResponse name`, as decoded. -/
def logstashBinding (name : Str) : appEnvService :=
  { Name := name, Label := "logstash14".toList, Tags := ["logstash".toList],
    Plan := "free".toList, Credentials := [("hostname".toList, .string "10.0.0.5".toList)] }

/-- The world of the scenario: applications `dash` (guid-A) and `web1` (guid-B)
in space `space-1`, `dash` bound to the `logstash14` service `shared-log`,
`web1` bound to `appBindingName same`; `status` is what `cf app dash` prints.
A third name, `ghost`, passes `cf app` but its search finds nothing.  The two
decoders are given by their values on the texts the commands of this world
return (the responses above and the empty text of a failed command), which are
the only texts the plugin passes to them here. -/
def scenario (status : List Str) (same : Bool) : World where
  cli cmd :=
    if cmd = appCommand "dash".toList then (status, none)
    else if cmd = appCommand "web1".toList then (["requested state: started".toList], none)
    else if cmd = appCommand "ghost".toList then (["requested state: started".toList], none)
    else if cmd = curlCommand (appSearchQuery "space-1".toList "dash".toList) then
      ([searchResponse "guid-A".toList], none)
    else if cmd = curlCommand (appSearchQuery "space-1".toList "web1".toList) then
      ([searchResponse "guid-B".toList], none)
    else if cmd = curlCommand (appSearchQuery "space-1".toList "ghost".toList) then
      ([emptySearchResponse], none)
    else if cmd = curlCommand (appEnvQuery "guid-A".toList) then
      ([envResponse "shared-log".toList], none)
    else if cmd = curlCommand (appEnvQuery "guid-B".toList) then
      ([envResponse (appBindingName same)], none)
    else ([], some "FAILED".toList)
  config := .ok "space-1".toList
  unmarshalSearch text :=
    if text = searchResponse "guid-A".toList then some (searchResults "guid-A".toList)
    else if text = searchResponse "guid-B".toList then some (searchResults "guid-B".toList)
    else some { Resources := [] }
  unmarshalServices text :=
    if text = envResponse "shared-log".toList then
      .ok [("logstash14".toList, [logstashBinding "shared-log".toList])]
    else if text = envResponse "other-log".toList then
      .ok [("logstash14".toList, [logstashBinding "other-log".toList])]
    else .ok []

/-- The status output of `dash` in the scenario. -/
def dashStatus : List Str :=
  ["requested state: started".toList, "instances: 1/1".toList,
   "urls: dash.example.com".toList]

/-- The arguments of the scenario: `cf kibana-me-logs dash web1`. -/
def scenarioArgs : List Str :=
  ["kibana-me-logs".toList, "dash".toList, "web1".toList]

/-- The events of the scenario's run, in order. -/
def scenarioLog : List Event :=
  [.cliCommandWithoutTerminalOutput (appCommand "dash".toList),
   .cliCommandWithoutTerminalOutput
     (curlCommand (appSearchQuery "space-1".toList "dash".toList)),
   .cliCommandWithoutTerminalOutput (appCommand "web1".toList),
   .cliCommandWithoutTerminalOutput
     (curlCommand (appSearchQuery "space-1".toList "web1".toList)),
   .cliCommandWithoutTerminalOutput (curlCommand (appEnvQuery "guid-A".toList)),
   .cliCommandWithoutTerminalOutput (curlCommand (appEnvQuery "guid-B".toList)),
   .getURLFromOutput dashStatus,
   .openRun "http://dash.example.com/#/dashboard/file/app-logs-guid-B.json".toList]

/-- A status output of `dash` that has no `urls:` line. -/
def noRouteStatus : List Str :=
  ["requested state: started".toList, "instances: 1/1".toList]

/-! ## Lemmas on the string functions -/

theorem Split_ne_nil (s : Str) (sep : Char) : Split s sep ≠ [] := by
  induction s with
  | nil => simp [Split]
  | cons c cs ih =>
    unfold Split
    split
    · simp
    · split <;> simp

theorem Split_of_no_sep (t : Str) (sep : Char) (h : ∀ c ∈ t, c ≠ sep) :
    Split t sep = [t] := by
  induction t with
  | nil => simp [Split]
  | cons c cs ih =>
    have hc : c ≠ sep := h c (by simp)
    have hcs : ∀ d ∈ cs, d ≠ sep := fun d hd => h d (by simp [hd])
    simp [Split, hc, ih hcs]

theorem Split_append_sep (t rest : Str) (sep : Char) (h : ∀ c ∈ t, c ≠ sep) :
    Split (t ++ sep :: rest) sep = t :: Split rest sep := by
  induction t with
  | nil => simp [Split]
  | cons c cs ih =>
    have hc : c ≠ sep := h c (by simp)
    have hcs : ∀ d ∈ cs, d ≠ sep := fun d hd => h d (by simp [hd])
    simp [Split, hc, ih hcs]

theorem Split_Join (ts : List Str) (sep : Char) (hne : ts ≠ [])
    (h : ∀ t ∈ ts, ∀ c ∈ t, c ≠ sep) : Split (Join ts [sep]) sep = ts := by
  induction ts with
  | nil => exact absurd rfl hne
  | cons a rest ih =>
    cases rest with
    | nil => simpa [Join] using Split_of_no_sep a sep (h a (by simp))
    | cons b more =>
      have ha : ∀ c ∈ a, c ≠ sep := h a (by simp)
      have hrest : ∀ t ∈ b :: more, ∀ c ∈ t, c ≠ sep :=
        fun t ht => h t (List.mem_cons_of_mem a ht)
      have := ih (by simp) hrest
      simp only [Join, List.append_assoc, List.singleton_append]
      rw [Split_append_sep a _ sep ha, this]

theorem isSpace_space : isSpace ' ' = true := by decide

theorem ne_space_of_not_isSpace {c : Char} (h : isSpace c = false) : c ≠ ' ' := by
  intro hc
  rw [hc, isSpace_space] at h
  exact Bool.noConfusion h

theorem dropWhile_append_last {p : Char → Bool} (l : Str) (d : Char) (hd : p d = false) :
    (l ++ [d]).dropWhile p = l.dropWhile p ++ [d] := by
  induction l with
  | nil => simp [List.dropWhile, hd]
  | cons c cs ih =>
    by_cases hc : p c = true
    · simp [List.dropWhile, hc, ih]
    · simp [List.dropWhile, hc]

/-- Trimming leaves alone a string that neither starts nor ends with a
character satisfying `f`, also when runs of such characters surround it. -/
theorem TrimFunc_surrounded (f : Char → Bool) (lead trail mid : Str) (a z : Char)
    (hlead : ∀ c ∈ lead, f c = true) (htrail : ∀ c ∈ trail, f c = true)
    (ha : f a = false) (hz : f z = false) :
    TrimFunc (lead ++ (a :: mid ++ [z]) ++ trail) f = a :: mid ++ [z] ∧
    TrimFunc (lead ++ [a] ++ trail) f = [a] := by
  have hl : ∀ s : Str, (lead ++ a :: s).dropWhile f = a :: s := by
    intro s
    induction lead with
    | nil => simp [List.dropWhile, ha]
    | cons c cs ih =>
      have hc : f c = true := hlead c (by simp)
      have := ih (fun d hd => hlead d (by simp [hd]))
      simpa [List.dropWhile, hc] using this
  have hr : ∀ s : Str, (trail.reverse ++ z :: s).dropWhile f = z :: s := by
    intro s
    have hrev : ∀ c ∈ trail.reverse, f c = true := fun c hc => htrail c (by simpa using hc)
    generalize trail.reverse = tr at hrev
    induction tr with
    | nil => simp [List.dropWhile, hz]
    | cons c cs ih =>
      have hc : f c = true := hrev c (by simp)
      have := ih (fun d hd => hrev d (by simp [hd]))
      simpa [List.dropWhile, hc] using this
  constructor
  · unfold TrimFunc TrimLeftFunc TrimRightFunc
    have e1 : lead ++ (a :: mid ++ [z]) ++ trail = lead ++ a :: (mid ++ [z] ++ trail) := by simp
    rw [e1, hl]
    have e2 : (a :: (mid ++ [z] ++ trail)).reverse = trail.reverse ++ z :: (mid.reverse ++ [a]) := by
      simp
    rw [e2, hr]
    simp
  · unfold TrimFunc TrimLeftFunc TrimRightFunc
    have e1 : lead ++ [a] ++ trail = lead ++ a :: trail := by simp
    rw [e1, hl]
    have hr1 : ∀ s : Str, (trail.reverse ++ a :: s).dropWhile f = a :: s := by
      intro s
      have hrev : ∀ c ∈ trail.reverse, f c = true := fun c hc => htrail c (by simpa using hc)
      generalize trail.reverse = tr at hrev
      induction tr with
      | nil => simp [List.dropWhile, ha]
      | cons c cs ih =>
        have hc : f c = true := hrev c (by simp)
        have := ih (fun d hd => hrev d (by simp [hd]))
        simpa [List.dropWhile, hc] using this
    have e2 : (a :: trail).reverse = trail.reverse ++ a :: [] := by simp
    rw [e2, hr1]
    simp

theorem TrimFunc_head (f : Char → Bool) (a : Char) (s : Str) (ha : f a = false) :
    ∃ r, TrimFunc (a :: s) f = a :: r := by
  refine ⟨(s.reverse.dropWhile f).reverse, ?_⟩
  unfold TrimFunc TrimLeftFunc TrimRightFunc
  simp [List.dropWhile, ha, dropWhile_append_last _ _ ha]

theorem mem_of_mem_TrimFunc (f : Char → Bool) (s : Str) (c : Char)
    (h : c ∈ TrimFunc s f) : c ∈ s := by
  unfold TrimFunc TrimLeftFunc TrimRightFunc at h
  have h1 : c ∈ (s.dropWhile f).reverse.dropWhile f := by simpa using h
  have h2 : c ∈ (s.dropWhile f).reverse := (List.dropWhile_suffix f).subset h1
  have h3 : c ∈ s.dropWhile f := by simpa using h2
  exact (List.dropWhile_suffix f).subset h3

theorem isSpace_scheme : ∀ c ∈ scheme, isSpace c = false := by decide

theorem TrimSpace_scheme_append (x : Str) (hx : ∀ c ∈ x, isSpace c = false) :
    TrimSpace (scheme ++ x) = scheme ++ x := by
  unfold TrimSpace
  rcases List.eq_nil_or_concat x with hnil | ⟨m, z, hxz⟩
  · subst hnil
    exact (TrimFunc_surrounded isSpace [] [] "ttp:/".toList 'h' '/' (by simp) (by simp)
      (by decide) (by decide)).1
  · subst hxz
    have hz : isSpace z = false := hx z (by simp)
    have := (TrimFunc_surrounded isSpace [] [] ("ttp://".toList ++ m) 'h' z (by simp) (by simp)
      (by decide) hz).1
    simpa [scheme] using this

theorem foldl_appendURL (pieces : List Str) (urls : List Str) :
    pieces.foldl appendURL urls =
      urls ++ pieces.map (fun p => TrimSpace (scheme ++ Trim p [','])) := by
  induction pieces generalizing urls with
  | nil => simp
  | cons p ps ih => simp [List.foldl, ih, appendURL]

/-- The last character of a `Join` of non-empty strings is the last character
of its last string. -/
theorem Join_concat (ts : List Str) (sep : Str) (hne : ts ≠ [])
    (h : ∀ t ∈ ts, t ≠ []) :
    ∃ m z, Join ts sep = m ++ [z] ∧ ∃ t ∈ ts, z ∈ t := by
  induction ts with
  | nil => exact absurd rfl hne
  | cons a rest ih =>
    cases rest with
    | nil =>
      rcases List.eq_nil_or_concat a with hnil | ⟨m, z, haz⟩
      · exact absurd hnil (h a (by simp))
      · exact ⟨m, z, by simpa [Join] using haz, a, by simp, by simp [haz]⟩
    | cons b more =>
      obtain ⟨m, z, hm, t, ht, hz⟩ := ih (by simp) (fun t ht => h t (List.mem_cons_of_mem a ht))
      refine ⟨a ++ sep ++ m, z, ?_, t, List.mem_cons_of_mem a ht, hz⟩
      simp [Join, hm]

theorem fieldsFrom_solid (t s cur : Str) (ht : ∀ c ∈ t, isSpace c = false) :
    fieldsFrom (t ++ s) cur = fieldsFrom s (t.reverse ++ cur) := by
  induction t generalizing cur with
  | nil => simp
  | cons c cs ih =>
    have hc : isSpace c = false := ht c (by simp)
    have := ih (c :: cur) (fun d hd => ht d (by simp [hd]))
    simp [fieldsFrom, hc, this]

theorem fieldsFrom_blank (lead s : Str) (hlead : ∀ c ∈ lead, isSpace c = true) :
    fieldsFrom (lead ++ s) [] = fieldsFrom s [] := by
  induction lead with
  | nil => simp
  | cons c cs ih =>
    have hc : isSpace c = true := hlead c (by simp)
    have := ih (fun d hd => hlead d (by simp [hd]))
    simp [fieldsFrom, hc, this]

theorem fieldsFrom_blank_end (trail cur : Str) (hcur : cur ≠ [])
    (htrail : ∀ c ∈ trail, isSpace c = true) :
    fieldsFrom trail cur = [cur.reverse] := by
  cases trail with
  | nil => simp [fieldsFrom, hcur]
  | cons c cs =>
    have hc : isSpace c = true := htrail c (by simp)
    have := fieldsFrom_blank cs [] (fun d hd => htrail d (by simp [hd]))
    simp only [List.append_nil] at this
    simp [fieldsFrom, hc, hcur, this]

/-- The white-space-delimited tokens of non-empty, white-space-free strings
joined by single spaces, with white space around, are those strings. -/
theorem Fields_Join (lead trail : Str) (ts : List Str)
    (hts : ∀ t ∈ ts, t ≠ [] ∧ ∀ c ∈ t, isSpace c = false)
    (hlead : ∀ c ∈ lead, isSpace c = true) (htrail : ∀ c ∈ trail, isSpace c = true) :
    Fields (lead ++ Join ts [' '] ++ trail) = ts := by
  unfold Fields
  rw [List.append_assoc, fieldsFrom_blank _ _ hlead]
  induction ts with
  | nil =>
    have := fieldsFrom_blank trail [] htrail
    simpa [Join, fieldsFrom] using this
  | cons a rest ih =>
    have ha := hts a (by simp)
    cases rest with
    | nil =>
      rw [Join, fieldsFrom_solid a trail [] ha.2, List.append_nil,
        fieldsFrom_blank_end trail _ (by simpa using ha.1) htrail]
      simp
    | cons b more =>
      have hrec := ih (fun t ht => hts t (List.mem_cons_of_mem a ht))
      have hrev : a.reverse ≠ [] := by simpa using ha.1
      rw [Join, List.append_assoc, List.append_assoc, fieldsFrom_solid a _ [] ha.2]
      simp only [List.append_nil, List.singleton_append, fieldsFrom, isSpace_space, if_true]
      simp [hrev, hrec]

/-- The first piece of `Split` is followed in the string by nothing or by the
separator. -/
theorem Split_head (s t : Str) (sep : Char) (h : (Split s sep).head? = some t) :
    s = t ∨ ∃ rest, s = t ++ sep :: rest := by
  induction s generalizing t with
  | nil =>
    left
    simpa [Split] using h
  | cons c cs ih =>
    unfold Split at h
    split at h
    · rename_i hc
      right
      simp only [List.head?_cons, Option.some.injEq] at h
      exact ⟨cs, by simp [← h, hc]⟩
    · split at h
      · rename_i hnil
        exact absurd hnil (Split_ne_nil cs sep)
      · rename_i piece pieces hsplit
        simp only [List.head?_cons, Option.some.injEq] at h
        rcases ih piece (by simp [hsplit]) with h1 | ⟨rest, h1⟩
        · left
          rw [← h, h1]
        · right
          exact ⟨rest, by rw [← h, h1]; simp⟩

/-- A string is its trimming between two runs of trimmed characters. -/
theorem TrimFunc_decompose (f : Char → Bool) (s : Str) :
    ∃ lead trail, s = lead ++ TrimFunc s f ++ trail ∧
      (∀ c ∈ lead, f c = true) ∧ (∀ c ∈ trail, f c = true) := by
  refine ⟨s.takeWhile f, ((s.dropWhile f).reverse.takeWhile f).reverse, ?_, ?_, ?_⟩
  · unfold TrimFunc TrimLeftFunc TrimRightFunc
    have h1 : s = s.takeWhile f ++ s.dropWhile f := (List.takeWhile_append_dropWhile f s).symm
    have h2 : (s.dropWhile f).reverse
        = (s.dropWhile f).reverse.takeWhile f ++ (s.dropWhile f).reverse.dropWhile f :=
      (List.takeWhile_append_dropWhile f _).symm
    have h3 : s.dropWhile f = ((s.dropWhile f).reverse.dropWhile f).reverse
        ++ ((s.dropWhile f).reverse.takeWhile f).reverse := by
      have h4 := congrArg List.reverse h2
      rw [List.reverse_reverse, List.reverse_append] at h4
      exact h4
    rw [List.append_assoc, ← h3]
    exact h1
  · intro c hc
    exact List.mem_takeWhile_imp hc
  · intro c hc
    exact List.mem_takeWhile_imp (List.mem_reverse.1 hc)

theorem mem_TrimFunc (f : Char → Bool) (s : Str) (c : Char) (hc : c ∈ s)
    (hf : f c = false) : c ∈ TrimFunc s f := by
  have keep : ∀ l : Str, c ∈ l → c ∈ l.dropWhile f := by
    intro l hl
    rw [← List.takeWhile_append_dropWhile f l] at hl
    rcases List.mem_append.1 hl with h1 | h1
    · have := List.mem_takeWhile_imp h1
      rw [hf] at this
      exact Bool.noConfusion this
    · exact h1
  unfold TrimFunc TrimLeftFunc TrimRightFunc
  exact List.mem_reverse.2 (keep _ (List.mem_reverse.2 (keep s hc)))

/-! ## Lemmas on the loop of `getURLFromOutput` -/

theorem loop_skip (lines urls : List Str) (h : ∀ l ∈ lines, ¬ startsWithUrlsLabel l) :
    getURLFromOutputLoop lines urls = (urls, none) := by
  induction lines with
  | nil => simp [getURLFromOutputLoop]
  | cons l ls ih =>
    have hl : ¬ (Split (TrimSpace l) ' ').head? = some urlsLabel := h l (by simp)
    have := ih (fun x hx => h x (by simp [hx]))
    simp only [getURLFromOutputLoop, hl, if_false]
    exact this

theorem loop_append_skip (before rest urls : List Str)
    (h : ∀ l ∈ before, ¬ startsWithUrlsLabel l) :
    getURLFromOutputLoop (before ++ rest) urls = getURLFromOutputLoop rest urls := by
  induction before with
  | nil => simp
  | cons l ls ih =>
    have hl : ¬ (Split (TrimSpace l) ' ').head? = some urlsLabel := h l (by simp)
    have := ih (fun x hx => h x (by simp [hx]))
    simp only [List.cons_append, getURLFromOutputLoop, hl, if_false]
    exact this

/-- A line `urls: t1 ... tn` of non-empty, space-free tokens is its own
trimming and splits into the label and the tokens. -/
theorem Split_urlsLine (lead trail : Str) (toks : List Str) (hn : toks ≠ [])
    (htok : ∀ t ∈ toks, t ≠ [] ∧ ∀ c ∈ t, isSpace c = false)
    (hlead : ∀ c ∈ lead, isSpace c = true) (htrail : ∀ c ∈ trail, isSpace c = true) :
    Split (TrimSpace (lead ++ Join (urlsLabel :: toks) [' '] ++ trail)) ' ' = urlsLabel :: toks := by
  have hall : ∀ t ∈ urlsLabel :: toks, ∀ c ∈ t, c ≠ ' ' := by
    intro t ht c hc
    rcases List.mem_cons.1 ht with h1 | h1
    · subst h1
      revert c
      decide
    · exact ne_space_of_not_isSpace ((htok t h1).2 c hc)
  obtain ⟨t0, ts, hts⟩ := List.exists_cons_of_ne_nil hn
  subst hts
  obtain ⟨m, z, hm, t, ht, hz⟩ := Join_concat (t0 :: ts) [' '] (by simp) (fun t ht => (htok t ht).1)
  have hzs : isSpace z = false := (htok t ht).2 z hz
  have hform : Join (urlsLabel :: t0 :: ts) [' '] = 'u' :: ("rls: ".toList ++ m) ++ [z] := by
    simp [Join, hm, urlsLabel]
  have htrim : TrimSpace (lead ++ Join (urlsLabel :: t0 :: ts) [' '] ++ trail)
      = Join (urlsLabel :: t0 :: ts) [' '] := by
    rw [hform]
    exact (TrimFunc_surrounded isSpace lead trail _ 'u' z hlead htrail (by decide) hzs).1
  rw [htrim]
  exact Split_Join _ ' ' (by simp) hall

/-- Every URL built by the inner loop starts with the `h` of the scheme. -/
theorem derived_url_head (piece : Str) :
    ∃ r, TrimSpace (scheme ++ Trim piece [',']) = 'h' :: r := by
  unfold TrimSpace
  exact TrimFunc_head isSpace 'h' _ (by decide)

/-- A string starting with `h` does not pass the `urls:` test. -/
theorem not_startsWithUrlsLabel_of_head (r : Str) : ¬ startsWithUrlsLabel ('h' :: r) := by
  unfold startsWithUrlsLabel TrimSpace
  obtain ⟨r1, hr1⟩ := TrimFunc_head isSpace 'h' r (by decide)
  rw [hr1]
  have hne : ('h' : Char) ≠ ' ' := by decide
  unfold Split
  simp only [hne, if_false]
  split
  · simp [urlsLabel]
  · simp [urlsLabel]

theorem loop_urls_head (lines : List Str) :
    ∀ (urls found : List Str), (∀ u ∈ urls, ∃ r, u = 'h' :: r) →
      getURLFromOutputLoop lines urls = (found, none) → ∀ u ∈ found, ∃ r, u = 'h' :: r := by
  induction lines with
  | nil =>
    intro urls found hurls h
    simp only [getURLFromOutputLoop, Prod.mk.injEq, and_true] at h
    subst h
    exact hurls
  | cons l ls ih =>
    intro urls found hurls h
    unfold getURLFromOutputLoop at h
    simp only at h
    split at h
    · split at h
      · refine ih _ found ?_ h
        intro u hu
        rw [foldl_appendURL] at hu
        rcases List.mem_append.1 hu with h1 | h1
        · exact hurls u h1
        · obtain ⟨p, _, hp⟩ := List.mem_map.1 h1
          obtain ⟨r, hr⟩ := derived_url_head p
          exact ⟨r, by rw [← hp, hr]⟩
      · split at h
        · simp at h
        · exact ih urls found hurls h
    · exact ih urls found hurls h

/-- A line that passes the test of line 173 has `urls:` as its first
white-space-delimited token. -/
theorem Fields_head_of_startsWithUrlsLabel (line : Str) (h : startsWithUrlsLabel line) :
    (Fields line).head? = some urlsLabel := by
  obtain ⟨lead, trail, hdec, hlead, htrail⟩ := TrimFunc_decompose isSpace line
  have hlabel : ∀ c ∈ urlsLabel, isSpace c = false := by decide
  have hcur : urlsLabel.reverse ++ [] ≠ [] := by decide
  unfold startsWithUrlsLabel TrimSpace at h
  rw [hdec]
  unfold Fields
  rcases Split_head _ _ _ h with h1 | ⟨rest, h1⟩
  · rw [h1, List.append_assoc, fieldsFrom_blank _ _ hlead, fieldsFrom_solid _ _ _ hlabel,
      fieldsFrom_blank_end _ _ hcur htrail]
    simp
  · rw [h1, List.append_assoc, fieldsFrom_blank _ _ hlead, List.append_assoc,
      fieldsFrom_solid _ _ _ hlabel]
    simp only [List.cons_append, fieldsFrom, isSpace_space, if_true]
    simp [urlsLabel]

/-- When no line has `urls:` as its first white-space-delimited token,
`getURLFromOutput` returns the empty sequence and a nil error. -/
theorem getURLFromOutput_noLabel (output : List Str)
    (h : ∀ l ∈ output, (Fields l).head? ≠ some urlsLabel) :
    getURLFromOutput output = ([], none) :=
  loop_skip output [] (fun l hl hs => h l hl (Fields_head_of_startsWithUrlsLabel l hs))

/-! ## The claims about `getURLFromOutput` -/

/-- C1: when the only line of the status output that starts with the token
`urls:` is `urls:` followed by n >= 1 non-empty, white-space-free tokens
separated by single spaces, `getURLFromOutput` returns a nil error and exactly
the strings `"http://"` followed by each token with its commas trimmed off, in
token order.  The other lines are those that fail the test of line 173, which
by `Fields_head_of_startsWithUrlsLabel` includes every line whose first
white-space-delimited token is not `urls:`. -/
theorem getURLFromOutput_wellFormed (before after toks : List Str) (hn : toks ≠ [])
    (htok : ∀ t ∈ toks, t ≠ [] ∧ ∀ c ∈ t, isSpace c = false)
    (hother : ∀ l ∈ before ++ after, ¬ startsWithUrlsLabel l) :
    getURLFromOutput (before ++ [Join (urlsLabel :: toks) [' ']] ++ after)
      = (toks.map (fun t => scheme ++ Trim t [',']), none) := by
  have hb : ∀ l ∈ before, ¬ startsWithUrlsLabel l := fun l hl => hother l (by simp [hl])
  have ha : ∀ l ∈ after, ¬ startsWithUrlsLabel l := fun l hl => hother l (by simp [hl])
  have hsplit := Split_urlsLine [] [] toks hn htok (by simp) (by simp)
  simp only [List.nil_append, List.append_nil] at hsplit
  have hlen : 1 < (urlsLabel :: toks).length := by
    cases toks with
    | nil => exact absurd rfl hn
    | cons t ts => simp
  have hmap : toks.map (fun p => TrimSpace (scheme ++ Trim p [',']))
      = toks.map (fun t => scheme ++ Trim t [',']) := by
    apply List.map_congr_left
    intro t ht
    exact TrimSpace_scheme_append _
      (fun c hc => (htok t ht).2 c (mem_of_mem_TrimFunc _ _ _ hc))
  unfold getURLFromOutput
  rw [List.append_assoc, loop_append_skip _ _ _ hb]
  simp only [List.singleton_append, getURLFromOutputLoop, hsplit, List.head?_cons, if_true,
    gt_iff_lt, hlen, List.drop_succ_cons, List.drop_zero, foldl_appendURL, List.nil_append]
  show getURLFromOutputLoop after _ = _
  rw [loop_skip _ _ ha, hmap]

/-- Witness of C1, at the status block of the specification: the two routes come out as
`http://foo.example.com` and `http://bar.example.com`. -/
theorem getURLFromOutput_wellFormed_witness :
    getURLFromOutput exampleStatus
      = (["http://foo.example.com".toList, "http://bar.example.com".toList], none) :=
  getURLFromOutput_wellFormed
    ["requested state: started".toList, "instances: 1/1".toList]
    ["last uploaded: today".toList]
    ["foo.example.com,".toList, "bar.example.com".toList]
    (by decide) (by decide) (by decide)

/-- C2: when some line of the status output is, after trimming, exactly `urls:`,
`getURLFromOutput` returns the error "App has no route" (with the one-element
result `[""]`), whatever the other lines are. -/
theorem getURLFromOutput_bareLabel (output : List Str) (line : Str)
    (hmem : line ∈ output) (hbare : TrimSpace line = urlsLabel) :
    getURLFromOutput output = ([[]], some noRouteMessage) := by
  have hsplit : Split urlsLabel ' ' = [urlsLabel] := by decide
  have key : ∀ (lines urls : List Str), line ∈ lines →
      getURLFromOutputLoop lines urls = ([[]], some noRouteMessage) := by
    intro lines
    induction lines with
    | nil => intro urls h; simp at h
    | cons l ls ih =>
      intro urls h
      by_cases hl : l = line
      · subst hl
        simp [getURLFromOutputLoop, hbare, hsplit]
      · have hin : line ∈ ls := by
          rcases List.mem_cons.1 h with h1 | h1
          · exact absurd h1.symm hl
          · exact h1
        unfold getURLFromOutputLoop
        simp only
        split
        · split
          · exact ih _ hin
          · split
            · rfl
            · exact ih _ hin
        · exact ih _ hin
  exact key output [] hmem

/-- Witness of C2, at a status block whose route line is a bare `urls:` between two lines
that do carry routes. -/
theorem getURLFromOutput_bareLabel_witness :
    getURLFromOutput ["urls: a.example.com".toList, "  urls:  ".toList,
        "urls: b.example.com".toList]
      = ([[]], some noRouteMessage) :=
  getURLFromOutput_bareLabel _ "  urls:  ".toList (by decide) (by decide)

/-- C8: when `getURLFromOutput` succeeds on a status output with the URLs `found`,
running it again on `found`, each URL taken as a line, returns the empty
sequence and a nil error. -/
theorem getURLFromOutput_reparse (output found : List Str)
    (h : getURLFromOutput output = (found, none)) :
    getURLFromOutput found = ([], none) := by
  have hhead : ∀ u ∈ found, ∃ r, u = 'h' :: r :=
    loop_urls_head output [] found (by simp) h
  apply loop_skip
  intro u hu
  obtain ⟨r, hr⟩ := hhead u hu
  rw [hr]
  exact not_startsWithUrlsLabel_of_head r

/-- Witness of C8, at a status output with two route lines, one of whose
routes is the text `urls:` itself. -/
theorem getURLFromOutput_reparse_witness :
    getURLFromOutput ["http://urls:".toList, "http://a.example.com".toList,
        "http://b.example.com".toList] = ([], none) :=
  getURLFromOutput_reparse
    ["name: dash".toList, "urls: urls:, a.example.com".toList, "urls: b.example.com".toList]
    _ (by decide)

/-- C10 fails as stated, at four lines whose first white-space-delimited token
is `urls:`.  On `urls:  foo` (two spaces) the tokens are `urls:` and `foo`, yet
the code returns the two URLs `http://` and `http://foo`.  On `urls:<tab>foo`
the tokens are the same and the code returns no URL.  On `urls: ,foo` the
token `,foo` stripped of trailing commas is `,foo`, yet the code returns
`http://foo`.  On `urls: ,` the code returns the empty-host entry `http://`. -/
theorem tokenisation_counterexample :
    ((Fields "urls:  foo".toList = ["urls:".toList, "foo".toList] ∧
      getURLFromOutput ["urls:  foo".toList] = (["http://".toList, "http://foo".toList], none)) ∧
      getURLFromOutput ["urls:  foo".toList] ≠ (specURLs "urls:  foo".toList, none) ∧
      scheme ∈ (getURLFromOutput ["urls:  foo".toList]).1) ∧
    (Fields ("urls:".toList ++ '\t' :: "foo".toList) = ["urls:".toList, "foo".toList] ∧
      getURLFromOutput ["urls:".toList ++ '\t' :: "foo".toList] = ([], none) ∧
      getURLFromOutput ["urls:".toList ++ '\t' :: "foo".toList]
        ≠ (specURLs ("urls:".toList ++ '\t' :: "foo".toList), none)) ∧
    (Fields "urls: ,foo".toList = ["urls:".toList, ",foo".toList] ∧
      specURLs "urls: ,foo".toList = ["http://,foo".toList] ∧
      getURLFromOutput ["urls: ,foo".toList] = (["http://foo".toList], none) ∧
      getURLFromOutput ["urls: ,foo".toList] ≠ (specURLs "urls: ,foo".toList, none)) ∧
    (Fields "urls: ,".toList = ["urls:".toList, ",".toList] ∧
      getURLFromOutput ["urls: ,".toList] = (["http://".toList], none) ∧
      scheme ∈ (getURLFromOutput ["urls: ,".toList]).1) := by
  decide

/-- C10, amended: for a line made of `urls:` and n >= 1 further non-empty,
white-space-free tokens, consecutive ones separated by exactly one space, with
any white space around the whole, the white-space-delimited tokens of the line
are `urls:` and those tokens, and the URLs derived from it are exactly the
tokens after `urls:`, each stripped of its leading and trailing commas and
prefixed with `http://`, in order; a token that has a character other than a
comma does not give the empty-host entry `http://`. -/
theorem getURLFromOutput_singleSpaces (lead trail : Str) (toks : List Str) (hn : toks ≠ [])
    (htok : ∀ t ∈ toks, t ≠ [] ∧ ∀ c ∈ t, isSpace c = false)
    (hlead : ∀ c ∈ lead, isSpace c = true) (htrail : ∀ c ∈ trail, isSpace c = true) :
    Fields (lead ++ Join (urlsLabel :: toks) [' '] ++ trail) = urlsLabel :: toks ∧
    getURLFromOutput [lead ++ Join (urlsLabel :: toks) [' '] ++ trail]
      = (toks.map (fun t => scheme ++ Trim t [',']), none) ∧
    ∀ t ∈ toks, (∃ c ∈ t, c ≠ ',') → scheme ++ Trim t [','] ≠ scheme := by
  refine ⟨?_, ?_, ?_⟩
  · apply Fields_Join _ _ _ _ hlead htrail
    intro t ht
    rcases List.mem_cons.1 ht with h1 | h1
    · subst h1
      decide
    · exact htok t h1
  · have hsplit := Split_urlsLine lead trail toks hn htok hlead htrail
    have hlen : 1 < (urlsLabel :: toks).length := by
      cases toks with
      | nil => exact absurd rfl hn
      | cons t ts => simp
    have hmap : toks.map (fun p => TrimSpace (scheme ++ Trim p [',']))
        = toks.map (fun t => scheme ++ Trim t [',']) := by
      apply List.map_congr_left
      intro t ht
      exact TrimSpace_scheme_append _
        (fun c hc => (htok t ht).2 c (mem_of_mem_TrimFunc _ _ _ hc))
    unfold getURLFromOutput
    simp only [getURLFromOutputLoop, hsplit, List.head?_cons, if_true,
      gt_iff_lt, hlen, List.drop_succ_cons, List.drop_zero, foldl_appendURL, List.nil_append]
    rw [hmap]
  · intro t _ hc heq
    obtain ⟨c, hct, hne⟩ := hc
    have hmem : c ∈ Trim t [','] := by
      unfold Trim
      apply mem_TrimFunc _ _ _ hct
      simp [hne]
    have hnil : Trim t [','] = [] := by simpa using heq
    rw [hnil] at hmem
    simp at hmem

/-- Witness of C10 as amended, at an indented line with two routes and commas
on either side. -/
theorem getURLFromOutput_singleSpaces_witness :
    Fields "  urls: a.example.com, ,b.example.com ".toList
      = ["urls:".toList, "a.example.com,".toList, ",b.example.com".toList] ∧
    getURLFromOutput ["  urls: a.example.com, ,b.example.com ".toList]
      = (["http://a.example.com".toList, "http://b.example.com".toList], none) ∧
    ∀ t ∈ ["a.example.com,".toList, ",b.example.com".toList], (∃ c ∈ t, c ≠ ',') →
      scheme ++ Trim t [','] ≠ scheme :=
  getURLFromOutput_singleSpaces "  ".toList " ".toList
    ["a.example.com,".toList, ",b.example.com".toList]
    (by decide) (by decide) (by decide) (by decide)

/-! ## Lemmas on the effects -/

@[simp] theorem bind_run {α β : Type} (m : Prog α) (f : α → Prog β) (log : List Event) :
    (m >>= f) log =
      match m log with
      | .ok a log1 => f a log1
      | .stop how log1 => .stop how log1 := rfl

@[simp] theorem pure_run {α : Type} (a : α) (log : List Event) :
    (pure a : Prog α) log = .ok a log := rfl

@[simp] theorem emit_run (e : Event) (log : List Event) :
    emit e log = .ok () (log ++ [e]) := rfl

@[simp] theorem osExit_run {α : Type} (code : Nat) (log : List Event) :
    (osExit code : Prog α) log = .stop (.exit code) log := rfl

@[simp] theorem index_run {α : Type} (xs : List α) (i : Nat) (log : List Event) :
    index xs i log =
      match xs[i]? with
      | some a => .ok a log
      | none => .stop .indexOutOfRange log := rfl

@[simp] theorem fatalIf_none (log : List Event) : fatalIf none log = .ok () log := rfl

@[simp] theorem fatalIf_some (e : Str) (log : List Event) :
    fatalIf (some e) log = .stop (.exit 1) (log ++ [.println ("ERROR: ".toList ++ e)]) := rfl

@[simp] theorem fatalWithMessageIf_none (msg : Str) (log : List Event) :
    fatalWithMessageIf none msg log = .ok () log := rfl

@[simp] theorem fatalWithMessageIf_some (e msg : Str) (log : List Event) :
    fatalWithMessageIf (some e) msg log
      = .stop (.exit 1) (log ++ [.println ("ERROR: ".toList ++ msg)]) := rfl

@[simp] theorem CliCommandWithoutTerminalOutput_run (w : World) (cmd : List Str)
    (log : List Event) :
    CliCommandWithoutTerminalOutput w cmd log
      = .ok (w.cli cmd) (log ++ [.cliCommandWithoutTerminalOutput cmd]) := rfl

theorem bind_ok {α β : Type} {m : Prog α} {f : α → Prog β} {log log2 : List Event} {b : β}
    (h : (m >>= f) log = .ok b log2) : ∃ a log1, m log = .ok a log1 ∧ f a log1 = .ok b log2 := by
  rw [bind_run] at h
  split at h
  · rename_i a log1 hm
    exact ⟨a, log1, hm, h⟩
  · exact Res.noConfusion h

theorem index_ok {α : Type} {xs : List α} {i : Nat} {log log1 : List Event} {a : α}
    (h : index xs i log = .ok a log1) : xs[i]? = some a ∧ log1 = log := by
  rw [index_run] at h
  split at h
  · rename_i b hb
    simp only [Res.ok.injEq] at h
    exact ⟨by rw [hb, h.1], h.2.symm⟩
  · exact Res.noConfusion h

theorem fatalIf_ok {err : Option Str} {log log1 : List Event} {u : Unit}
    (h : fatalIf err log = .ok u log1) : err = none ∧ log1 = log := by
  cases err with
  | none =>
    simp only [fatalIf_none, Res.ok.injEq] at h
    exact ⟨rfl, h.2.symm⟩
  | some e =>
    rw [fatalIf_some] at h
    exact Res.noConfusion h

theorem fatalWithMessageIf_ok {err : Option Str} {msg : Str} {log log1 : List Event} {u : Unit}
    (h : fatalWithMessageIf err msg log = .ok u log1) : err = none ∧ log1 = log := by
  cases err with
  | none =>
    simp only [fatalWithMessageIf_none, Res.ok.injEq] at h
    exact ⟨rfl, h.2.symm⟩
  | some e =>
    rw [fatalWithMessageIf_some] at h
    exact Res.noConfusion h

theorem openedURLs_append (xs ys : List Event) :
    openedURLs (xs ++ ys) = openedURLs xs ++ openedURLs ys := by
  induction xs with
  | nil => simp [openedURLs]
  | cons e es ih => cases e <;> simp [openedURLs, ih]

theorem parsedOutputs_append (xs ys : List Event) :
    parsedOutputs (xs ++ ys) = parsedOutputs xs ++ parsedOutputs ys := by
  induction xs with
  | nil => simp [parsedOutputs]
  | cons e es ih => cases e <;> simp [parsedOutputs, ih]

/-- What `findAppGUID` does, case by case. -/
theorem findAppGUID_run (w : World) (appName : Str) (log : List Event) :
    findAppGUID w appName log =
      match w.config with
      | .error e => .stop (.exit 1) (log ++ [.println ("ERROR: ".toList ++ e)])
      | .ok spaceGUID =>
        match w.unmarshalSearch
            (Join (w.cli (curlCommand (appSearchQuery spaceGUID appName))).1 []) with
        | none => .stop .nilPointerDereference
            (log ++ [.cliCommandWithoutTerminalOutput
              (curlCommand (appSearchQuery spaceGUID appName))])
        | some res =>
          match res.Resources with
          | [] => .stop .indexOutOfRange
              (log ++ [.cliCommandWithoutTerminalOutput
                (curlCommand (appSearchQuery spaceGUID appName))])
          | first :: _ => .ok first.Metadata.GUID
              (log ++ [.cliCommandWithoutTerminalOutput
                (curlCommand (appSearchQuery spaceGUID appName))]) := by
  unfold findAppGUID spaceGuid
  cases hc : w.config with
  | error e => simp
  | ok space =>
    simp only [bind_run, pure_run, CliCommandWithoutTerminalOutput_run, index_run, deref]
    cases w.unmarshalSearch
        (Join (w.cli (curlCommand (appSearchQuery space appName))).1 []) with
    | none => simp
    | some res =>
      simp only
      cases res.Resources with
      | nil => simp
      | cons first others => simp

theorem findAppGUID_ok {w : World} {appName guid : Str} {log log1 : List Event}
    (h : findAppGUID w appName log = .ok guid log1) :
    resolvedGUID w appName = some guid ∧
      ∃ spaceGUID, log1 = log ++ [.cliCommandWithoutTerminalOutput
        (curlCommand (appSearchQuery spaceGUID appName))] := by
  rw [findAppGUID_run] at h
  unfold resolvedGUID
  cases hc : w.config with
  | error e =>
    rw [hc] at h
    exact Res.noConfusion h
  | ok space =>
    rw [hc] at h
    simp only at h ⊢
    cases hdec : w.unmarshalSearch
        (Join (w.cli (curlCommand (appSearchQuery space appName))).1 []) with
    | none =>
      rw [hdec] at h
      exact Res.noConfusion h
    | some res =>
      rw [hdec] at h
      simp only at h ⊢
      cases hres : res.Resources with
      | nil =>
        rw [hres] at h
        exact Res.noConfusion h
      | cons first others =>
        rw [hres] at h
        simp only [Res.ok.injEq] at h
        refine ⟨?_, space, h.2.symm⟩
        simp [h.1]

/-- What `findService` does, case by case. -/
theorem findService_run (w : World) (appGUID serviceName : Str) (log : List Event) :
    findService w appGUID serviceName log =
      match (w.cli (curlCommand (appEnvQuery appGUID))).1 with
      | [] => .stop .indexOutOfRange
          (log ++ [.cliCommandWithoutTerminalOutput (curlCommand (appEnvQuery appGUID))])
      | text :: _ =>
        match w.unmarshalServices text with
        | .error e => .ok (appEnvService.zero, some e)
            (log ++ [.cliCommandWithoutTerminalOutput (curlCommand (appEnvQuery appGUID))])
        | .ok services =>
          match services.index serviceName with
          | [] => .ok (appEnvService.zero, some (notBoundMessage serviceName))
              (log ++ [.cliCommandWithoutTerminalOutput (curlCommand (appEnvQuery appGUID))])
          | logstash :: _ => .ok (logstash, none)
              (log ++ [.cliCommandWithoutTerminalOutput (curlCommand (appEnvQuery appGUID))]) := by
  unfold findService
  simp only [bind_run, pure_run, CliCommandWithoutTerminalOutput_run, index_run]
  cases (w.cli (curlCommand (appEnvQuery appGUID))).1 with
  | nil => simp
  | cons text more =>
    simp only [List.getElem?_cons_zero]
    cases w.unmarshalServices text with
    | error e => simp
    | ok services =>
      simp only
      cases services.index serviceName with
      | nil => simp
      | cons b bs => simp

theorem findService_ok {w : World} {appGUID serviceName : Str} {log log1 : List Event}
    {b : appEnvService} {err : Option Str}
    (h : findService w appGUID serviceName log = .ok (b, err) log1) :
    log1 = log ++ [.cliCommandWithoutTerminalOutput (curlCommand (appEnvQuery appGUID))] ∧
      (err = none → boundService w appGUID serviceName = some b) := by
  rw [findService_run] at h
  unfold boundService
  cases hcli : (w.cli (curlCommand (appEnvQuery appGUID))).1 with
  | nil =>
    rw [hcli] at h
    exact Res.noConfusion h
  | cons text more =>
    rw [hcli] at h
    simp only at h ⊢
    cases hdec : w.unmarshalServices text with
    | error e =>
      rw [hdec] at h
      simp only [Res.ok.injEq, Prod.mk.injEq] at h
      refine ⟨h.2.symm, ?_⟩
      intro he
      rw [he] at h
      simp at h
    | ok services =>
      rw [hdec] at h
      simp only at h ⊢
      cases hidx : services.index serviceName with
      | nil =>
        rw [hidx] at h
        simp only [Res.ok.injEq, Prod.mk.injEq] at h
        refine ⟨h.2.symm, ?_⟩
        intro he
        rw [he] at h
        simp at h
      | cons logstash others =>
        rw [hidx] at h
        simp only [Res.ok.injEq, Prod.mk.injEq] at h
        refine ⟨h.2.symm, ?_⟩
        intro _
        simp [h.1.1]

theorem help_ok {c : Prop} [Decidable c] {cmd : List Str} {log log1 : List Event} {u : Unit}
    (h : (if c then emit (.cliCommand cmd) else pure ()) log = .ok u log1) :
    openedURLs log1 = openedURLs log := by
  by_cases hc : c
  · simp only [hc, if_true, emit_run, Res.ok.injEq] at h
    rw [← h.2, openedURLs_append]
    simp [openedURLs]
  · simp only [hc, if_false, pure_run, Res.ok.injEq] at h
    rw [h.2]

theorem correlationCheck_ok {a b : appEnvService} {log log1 : List Event} {u : Unit}
    (h : correlationCheck a b log = .ok u log1) : a.Name = b.Name ∧ log1 = log := by
  unfold correlationCheck at h
  by_cases hn : a.Name = b.Name
  · simp only [ne_eq, hn, not_true_eq_false, if_false, pure_run, Res.ok.injEq] at h
    exact ⟨hn, h.2.symm⟩
  · simp only [ne_eq, hn, not_false_eq_true, if_true, fatalIf_some] at h
    exact Res.noConfusion h

theorem findAppGUID_of_resolved {w : World} {appName guid : Str}
    (h : resolvedGUID w appName = some guid) :
    ∃ spaceGUID, ∀ log, findAppGUID w appName log
      = .ok guid (log ++ [.cliCommandWithoutTerminalOutput
          (curlCommand (appSearchQuery spaceGUID appName))]) := by
  unfold resolvedGUID at h
  cases hc : w.config with
  | error e =>
    rw [hc] at h
    simp at h
  | ok space =>
    rw [hc] at h
    simp only at h
    refine ⟨space, fun log => ?_⟩
    rw [findAppGUID_run, hc]
    simp only
    cases hdec : w.unmarshalSearch
        (Join (w.cli (curlCommand (appSearchQuery space appName))).1 []) with
    | none =>
      rw [hdec] at h
      simp at h
    | some res =>
      rw [hdec] at h
      simp only at h ⊢
      cases hres : res.Resources with
      | nil =>
        rw [hres] at h
        simp at h
      | cons first others =>
        rw [hres] at h
        simp only [List.head?_cons, Option.map_some', Option.some.injEq] at h
        simp [h]

theorem findService_of_bound {w : World} {appGUID serviceName : Str} {b : appEnvService}
    (h : boundService w appGUID serviceName = some b) (log : List Event) :
    findService w appGUID serviceName log
      = .ok (b, none)
          (log ++ [.cliCommandWithoutTerminalOutput (curlCommand (appEnvQuery appGUID))]) := by
  unfold boundService at h
  rw [findService_run]
  cases hcli : (w.cli (curlCommand (appEnvQuery appGUID))).1 with
  | nil =>
    rw [hcli] at h
    simp at h
  | cons text more =>
    rw [hcli] at h
    simp only at h ⊢
    cases hdec : w.unmarshalServices text with
    | error e =>
      rw [hdec] at h
      simp at h
    | ok services =>
      rw [hdec] at h
      simp only at h ⊢
      cases hidx : services.index serviceName with
      | nil =>
        rw [hidx] at h
        simp at h
      | cons first others =>
        rw [hidx] at h
        simp only [List.head?_cons, Option.some.injEq] at h
        simp [h]

/-! ## The claims about the resolver, the extractor, the correlation check and `Run` -/

/-- C3, amended: the correlation check of `Run` lets the run continue exactly
when the two binding names are identical; whether they are empty plays no part. -/
theorem correlationCheck_iff (a b : appEnvService) (log : List Event) :
    (∃ log1, correlationCheck a b log = .ok () log1) ↔ a.Name = b.Name := by
  unfold correlationCheck
  by_cases h : a.Name = b.Name
  · simp [h]
  · simp [h]

/-- C3 fails as stated: two bindings whose names are both empty pass the
correlation check, although neither name is non-empty. -/
theorem correlationCheck_counterexample :
    correlationCheck appEnvService.zero appEnvService.zero [] = .ok () [] ∧
    ¬ (appEnvService.zero.Name = appEnvService.zero.Name ∧
        appEnvService.zero.Name ≠ [] ∧ appEnvService.zero.Name ≠ []) := by
  constructor
  · rfl
  · simp [appEnvService.zero]

/-- C5: once the environment of the application is decoded into `services`,
`findService` returns the first binding of the label's group, unchanged and
with a nil error, when the group has an entry, and the zero binding with the
error "app is not bound to a <label> service" when the group is empty or the
label is absent. -/
theorem findService_spec (w : World) (appGUID serviceName text : Str) (more : List Str)
    (e : Option Str) (services : appEnvServices) (log : List Event)
    (hcli : w.cli (curlCommand (appEnvQuery appGUID)) = (text :: more, e))
    (hdec : w.unmarshalServices text = .ok services) :
    (∀ b bs, services.lookup serviceName = some (b :: bs) →
      findService w appGUID serviceName log
        = .ok (b, none)
            (log ++ [.cliCommandWithoutTerminalOutput (curlCommand (appEnvQuery appGUID))])) ∧
    ((services.lookup serviceName = none ∨ services.lookup serviceName = some []) →
      findService w appGUID serviceName log
        = .ok (appEnvService.zero,
              some ("app is not bound to a ".toList ++ serviceName ++ " service".toList))
            (log ++ [.cliCommandWithoutTerminalOutput (curlCommand (appEnvQuery appGUID))])) := by
  constructor
  · intro b bs hb
    simp [findService, hcli, hdec, appEnvServices.index, hb]
  · intro h
    rcases h with h | h <;>
      simp [findService, hcli, hdec, appEnvServices.index, h, notBoundMessage]

/-- Witness of C5, at the scenario: the `logstash14` group of `dash` has one binding, which
is returned as it is, and the label `redis` is absent. -/
theorem findService_spec_witness :
    findService (scenario dashStatus true) "guid-A".toList "logstash14".toList []
      = .ok (logstashBinding "shared-log".toList, none)
          [.cliCommandWithoutTerminalOutput (curlCommand (appEnvQuery "guid-A".toList))] ∧
    findService (scenario dashStatus true) "guid-A".toList "redis".toList []
      = .ok (appEnvService.zero, some "app is not bound to a redis service".toList)
          [.cliCommandWithoutTerminalOutput (curlCommand (appEnvQuery "guid-A".toList))] :=
  ⟨(findService_spec (scenario dashStatus true) "guid-A".toList
      "logstash14".toList (envResponse "shared-log".toList) [] none
      [("logstash14".toList, [logstashBinding "shared-log".toList])] [] rfl rfl).1
      (logstashBinding "shared-log".toList) [] rfl,
   (findService_spec (scenario dashStatus true) "guid-A".toList
      "redis".toList (envResponse "shared-log".toList) [] none
      [("logstash14".toList, [logstashBinding "shared-log".toList])] [] rfl rfl).2
      (Or.inl rfl)⟩

/-- C4: on a search response without resources (`{"resources": []}`),
`findAppGUID` stops with the run-time panic `index out of range` right after
the query; no error is reported, and `Run` on such a target application
panics the same way. -/
theorem findAppGUID_empty_panics :
    (scenario dashStatus true).unmarshalSearch emptySearchResponse
      = some { Resources := [] } ∧
    findAppGUID (scenario dashStatus true) "ghost".toList []
      = .stop .indexOutOfRange
          [.cliCommandWithoutTerminalOutput
            (curlCommand (appSearchQuery "space-1".toList "ghost".toList))] ∧
    Run (scenario dashStatus true)
        ["kibana-me-logs".toList, "dash".toList, "ghost".toList] []
      = .stop .indexOutOfRange
          [.cliCommandWithoutTerminalOutput (appCommand "dash".toList),
           .cliCommandWithoutTerminalOutput
             (curlCommand (appSearchQuery "space-1".toList "dash".toList)),
           .cliCommandWithoutTerminalOutput (appCommand "ghost".toList),
           .cliCommandWithoutTerminalOutput
             (curlCommand (appSearchQuery "space-1".toList "ghost".toList))] :=
  ⟨rfl, rfl, rfl⟩

/-- C6: when `Run` returns normally, exactly one URL was handed to the browser
launcher, and it is the first base URL that `getURLFromOutput` parses from the
status output of the kibana application (the second argument), followed by
`/#/dashboard/file/app-logs-`, the identifier resolved for the target
application (the third argument) and `.json`. -/
theorem Run_opens_dashboard (w : World) (args : List Str) (log : List Event)
    (h : Run w args [] = .ok () log) :
    ∃ kibanaAppName appName kibanaBaseURL others appGUID,
      args[1]? = some kibanaAppName ∧ args[2]? = some appName ∧
      getURLFromOutput (w.cli (appCommand kibanaAppName)).1 = (kibanaBaseURL :: others, none) ∧
      resolvedGUID w appName = some appGUID ∧
      openedURLs log =
        [kibanaBaseURL ++ "/#/dashboard/file/app-logs-".toList ++ appGUID ++ ".json".toList] := by
  unfold Run at h
  obtain ⟨arg0, l0, h0, h⟩ := bind_ok h
  obtain ⟨_, l1, h1, h⟩ := bind_ok h
  obtain ⟨kibanaAppName, l2, h2, h⟩ := bind_ok h
  obtain ⟨appName, l3, h3, h⟩ := bind_ok h
  obtain ⟨⟨kibanaAppOutput, err1⟩, l4, h4, h⟩ := bind_ok h
  obtain ⟨_, l5, h5, h⟩ := bind_ok h
  obtain ⟨kibanaGUID, l6, h6, h⟩ := bind_ok h
  obtain ⟨⟨x, err2⟩, l7, h7, h⟩ := bind_ok h
  obtain ⟨_, l8, h8, h⟩ := bind_ok h
  obtain ⟨appGUID, l9, h9, h⟩ := bind_ok h
  obtain ⟨⟨kibanaLogstash, err3⟩, l10, h10, h⟩ := bind_ok h
  obtain ⟨_, l11, h11, h⟩ := bind_ok h
  obtain ⟨⟨appLogstash, err4⟩, l12, h12, h⟩ := bind_ok h
  obtain ⟨_, l13, h13, h⟩ := bind_ok h
  obtain ⟨_, l14, h14, h⟩ := bind_ok h
  obtain ⟨_, l15, h15, h⟩ := bind_ok h
  cases hg : getURLFromOutput kibanaAppOutput with
  | mk kibanaURLs err5 =>
    rw [hg] at h
    obtain ⟨_, l16, h16, h⟩ := bind_ok h
    obtain ⟨kibanaBaseURL, l17, h17, h⟩ := bind_ok h
    obtain ⟨hargs0, e0⟩ := index_ok h0
    have e1 := help_ok h1
    obtain ⟨hargs1, e2⟩ := index_ok h2
    obtain ⟨hargs2, e3⟩ := index_ok h3
    simp only [CliCommandWithoutTerminalOutput_run, Res.ok.injEq] at h4 h7
    obtain ⟨_, e5⟩ := fatalWithMessageIf_ok h5
    obtain ⟨_, space6, e6⟩ := findAppGUID_ok h6
    obtain ⟨_, e8⟩ := fatalWithMessageIf_ok h8
    obtain ⟨hguid, space9, e9⟩ := findAppGUID_ok h9
    obtain ⟨e10, _⟩ := findService_ok h10
    obtain ⟨_, e11⟩ := fatalIf_ok h11
    obtain ⟨e12, _⟩ := findService_ok h12
    obtain ⟨_, e13⟩ := fatalIf_ok h13
    obtain ⟨_, e14⟩ := correlationCheck_ok h14
    simp only [emit_run, Res.ok.injEq] at h15 h
    obtain ⟨herr5, e16⟩ := fatalIf_ok h16
    obtain ⟨hurls, e17⟩ := index_ok h17
    have hout : (w.cli (appCommand kibanaAppName)).1 = kibanaAppOutput := by rw [h4.1]
    obtain ⟨first, others, hcons⟩ : ∃ first others, kibanaURLs = first :: others := by
      cases kibanaURLs with
      | nil => simp at hurls
      | cons a b => exact ⟨a, b, rfl⟩
    have hfirst : first = kibanaBaseURL := by
      rw [hcons] at hurls
      simpa using hurls
    refine ⟨kibanaAppName, appName, kibanaBaseURL, others, appGUID, hargs1, hargs2, ?_, hguid, ?_⟩
    · rw [hout, hg, hcons, hfirst, herr5]
    · rw [← h.2, e17, e16, ← h15.2, e14, e13, e12, e11, e10, e9, e8, ← h7.2, e6, e5, ← h4.2,
        e3, e2]
      simp only [openedURLs_append, e1, e0, openedURLs, dashboardURL, List.append_nil,
        List.nil_append]

/-- Witness of C6, at the scenario of the specification: `dash` and `web1` resolve to guid-A
and guid-B, both are bound to `shared-log`, the status of `dash` has the line
`urls: dash.example.com`; the run returns normally and the URL handed to the
launcher is `http://dash.example.com/#/dashboard/file/app-logs-guid-B.json`. -/
theorem Run_opens_dashboard_witness :
    Run (scenario dashStatus true) scenarioArgs [] = .ok () scenarioLog ∧
    openedURLs scenarioLog
      = ["http://dash.example.com/#/dashboard/file/app-logs-guid-B.json".toList] ∧
    ∃ kibanaAppName appName kibanaBaseURL others appGUID,
      scenarioArgs[1]? = some kibanaAppName ∧ scenarioArgs[2]? = some appName ∧
      getURLFromOutput ((scenario dashStatus true).cli
        (appCommand kibanaAppName)).1 = (kibanaBaseURL :: others, none) ∧
      resolvedGUID (scenario dashStatus true) appName = some appGUID ∧
      openedURLs scenarioLog =
        [kibanaBaseURL ++ "/#/dashboard/file/app-logs-".toList ++ appGUID ++ ".json".toList] :=
  ⟨rfl, rfl, Run_opens_dashboard (scenario dashStatus true) scenarioArgs
    scenarioLog rfl⟩

/-- C7: when both applications exist and resolve to identifiers, both have a
`logstash14` binding, and the names of the two bindings differ, `Run` prints
"ERROR: app and kibana do not share the same logstash14 service" as its last
step and exits with status 1, having neither called `getURLFromOutput` nor
handed a URL to the browser launcher. -/
theorem Run_mismatch (w : World) (arg0 kibanaAppName appName : Str) (rest : List Str)
    (kibanaGUID appGUID : Str) (kibanaLogstash appLogstash : appEnvService)
    (hk : (w.cli (appCommand kibanaAppName)).2 = none)
    (ha : (w.cli (appCommand appName)).2 = none)
    (hkg : resolvedGUID w kibanaAppName = some kibanaGUID)
    (hag : resolvedGUID w appName = some appGUID)
    (hkb : boundService w kibanaGUID logstashLabel = some kibanaLogstash)
    (hab : boundService w appGUID logstashLabel = some appLogstash)
    (hne : appLogstash.Name ≠ kibanaLogstash.Name) :
    ∃ log, Run w (arg0 :: kibanaAppName :: appName :: rest) [] = .stop (.exit 1) log ∧
      log.getLast? = some (.println
        "ERROR: app and kibana do not share the same logstash14 service".toList) ∧
      parsedOutputs log = [] ∧ openedURLs log = [] := by
  obtain ⟨s1, hfk⟩ := findAppGUID_of_resolved hkg
  obtain ⟨s2, hfa⟩ := findAppGUID_of_resolved hag
  have hsk := findService_of_bound hkb
  have hsa := findService_of_bound hab
  have hcheck : ∀ log, correlationCheck appLogstash kibanaLogstash log
      = .stop (.exit 1) (log ++ [.println ("ERROR: ".toList ++ mismatchMessage)]) := by
    intro log
    simp [correlationCheck, hne]
  cases hko : w.cli (appCommand kibanaAppName) with
  | mk kout kerr =>
    cases hao : w.cli (appCommand appName) with
    | mk aout aerr =>
      rw [hko] at hk
      rw [hao] at ha
      simp only at hk ha
      subst hk
      subst ha
      have key : ∃ pre, Run w (arg0 :: kibanaAppName :: appName :: rest) []
            = .stop (.exit 1) (pre ++ [.println ("ERROR: ".toList ++ mismatchMessage)]) ∧
          parsedOutputs pre = [] ∧ openedURLs pre = [] := by
        unfold Run
        simp only [bind_run, index_run, List.getElem?_cons_zero, List.getElem?_cons_succ,
          CliCommandWithoutTerminalOutput_run, hko, hao, fatalWithMessageIf_none, hfk, hfa,
          hsk, hsa, fatalIf_none, hcheck]
        by_cases hc : arg0 ≠ commandName ∨ (arg0 :: kibanaAppName :: appName :: rest).length < 3
        · simp only [hc, if_true, emit_run]
          exact ⟨_, rfl, by simp [parsedOutputs], by simp [openedURLs]⟩
        · simp only [hc, if_false, pure_run]
          exact ⟨_, rfl, by simp [parsedOutputs], by simp [openedURLs]⟩
      obtain ⟨pre, hrun, hparsed, hopened⟩ := key
      refine ⟨_, hrun, ?_, ?_, ?_⟩
      · simp [mismatchMessage]
      · simp [parsedOutputs_append, hparsed, parsedOutputs]
      · simp [openedURLs_append, hopened, openedURLs]

/-- Witness of C7, at the scenario of the specification with `web1` bound to
`other-log`. -/
theorem Run_mismatch_witness :
    ∃ log, Run (scenario dashStatus false) scenarioArgs [] = .stop (.exit 1) log ∧
      log.getLast? = some (.println
        "ERROR: app and kibana do not share the same logstash14 service".toList) ∧
      parsedOutputs log = [] ∧ openedURLs log = [] :=
  Run_mismatch (scenario dashStatus false) "kibana-me-logs".toList "dash".toList
    "web1".toList [] "guid-A".toList "guid-B".toList (logstashBinding "shared-log".toList)
    (logstashBinding "other-log".toList) rfl rfl rfl rfl rfl rfl (by decide)

/-- C9: on a status output without a `urls:` line `getURLFromOutput` returns the
empty sequence and a nil error, and `Run` then indexes into it: the run stops
with the run-time panic `index out of range` right after the call, without
printing an error. -/
theorem Run_noRoute_panics :
    getURLFromOutput noRouteStatus = ([], none) ∧
    Run (scenario noRouteStatus true) scenarioArgs []
      = .stop .indexOutOfRange
          [.cliCommandWithoutTerminalOutput (appCommand "dash".toList),
           .cliCommandWithoutTerminalOutput
             (curlCommand (appSearchQuery "space-1".toList "dash".toList)),
           .cliCommandWithoutTerminalOutput (appCommand "web1".toList),
           .cliCommandWithoutTerminalOutput
             (curlCommand (appSearchQuery "space-1".toList "web1".toList)),
           .cliCommandWithoutTerminalOutput (curlCommand (appEnvQuery "guid-A".toList)),
           .cliCommandWithoutTerminalOutput (curlCommand (appEnvQuery "guid-B".toList)),
           .getURLFromOutput noRouteStatus] :=
  ⟨rfl, rfl⟩

end KibanaMeLogs
